import Mathlib

/-!
Shallow embedding of the 6LoWPAN radio-provisioning subsystem
(`mininet/sixLoWPAN/link.py` and `mininet/sixLoWPAN/module.py`).

Python strings are modelled as `List Char`; Python `None` as `Option`;
raised exceptions as `Except PyErr`.  External shell commands are modelled
by passing their textual outputs in explicitly: the code only ever
forwards those outputs, it never branches on them except where noted.
-/

/-- A Python string, modelled as its list of characters. -/
abbrev Str := List Char

/-- A dynamically typed Python value, as far as the code needs one:
`prefixLen` holds the int `8` after the loopback shortcut but a string
after `ipstr.split('/')`. -/
inductive PyVal where
  | int : Nat → PyVal
  | str : Str → PyVal
deriving DecidableEq

/-- Python exceptions that the embedded code can raise. -/
inductive PyErr where
  /-- `TypeError`, e.g. from evaluating `'/' in None`. -/
  | typeError
  /-- The `Exception('No prefix length set for IP address …')` raised by
  `setIP`; the spec calls this ConfigurationError. -/
  | configurationError
  /-- `ValueError` from unpacking a split of the wrong arity. -/
  | valueError
  /-- `UnboundLocalError` from reading a local variable never assigned. -/
  | unboundLocalError
  /-- `KeyError` from a missing dict key. -/
  | keyError
  /-- `IndexError` from indexing an empty list. -/
  | indexError
deriving DecidableEq

/-- The mutable state of `IntfSixLoWPAN` that the embedded methods touch
(`link.py` lines 17-27): `name`, `mac`, `ip`, `prefixLen`. -/
structure Intf where
  name : Str
  mac : Option Str
  ip : Option Str
  prefixLen : Option PyVal
deriving DecidableEq

/-- A value stored in the `results` dict built by `config` (`link.py` 175-182):
`isUp` stores a bool, the other setters store command-output strings. -/
inductive RVal where
  | str : Str → RVal
  | bool : Bool → RVal
deriving DecidableEq

/-- Outputs of the external commands that the interface methods run
(`node.cmd` / `node.pexec` results).  The code never inspects these beyond
emptiness / substring checks, so they are inputs of the model. -/
structure CmdEnv where
  /-- output of `ip -6 addr add … dev …` inside `ipAddr(arg)` -/
  addOut : Str
  /-- output of `ip link set … down` -/
  downOut : Str
  /-- output of `ip link set … address …` -/
  macOut : Str
  /-- output of `ip link set … up` -/
  upOut : Str
  /-- output of `ip addr show …` -/
  showOut : Str
deriving DecidableEq

/-- `setIP` (`link.py` 55-67).  `ipstr : Option Str` because Python callers can
pass `None`, on which `'/' in ipstr` raises `TypeError`.  On an `addr/len`
input the address is split; on a plain address an explicit `prefixLen` is
required or the call raises.  Returns the updated handle and the
`ipAddr` command output. -/
def setIP (st : Intf) (ipstr : Option Str) (prefLen : Option PyVal)
    (env : CmdEnv) : Except PyErr (Intf × Str) :=
  match ipstr with
  | none => .error .typeError
  | some s =>
    if '/' ∈ s then
      match s.splitOn '/' with
      | [a, b] => .ok ({ st with ip := some a, prefixLen := some (.str b) }, env.addOut)
      | _ => .error .valueError
    else
      match prefLen with
      | none => .error .configurationError
      | some pl => .ok ({ st with ip := some s, prefixLen := some pl }, env.addOut)

/-- `setMAC` (`link.py` 69-75): sets the field and returns the concatenated
outputs of `down`, `address`, `up`. -/
def setMAC (st : Intf) (macstr : Str) (env : CmdEnv) : Intf × Str :=
  ({ st with mac := some macstr }, env.downOut ++ env.macOut ++ env.upOut)

/-- Python's `pat in s` substring test. -/
def hasSubstr (pat : Str) : Str → Bool
  | [] => pat.isEmpty
  | c :: rest => pat.isPrefixOf (c :: rest) || hasSubstr pat rest

/-- `isUp` (`link.py` 118-129).  With `setUp = true` it runs `ip link set up`
and returns `true` exactly when that command's output is empty (Python
string truthiness); otherwise it checks for the substring `"UP"` in the
`ip addr show` output. -/
def isUp (setUp : Bool) (env : CmdEnv) : Bool :=
  if setUp then
    if env.upOut.isEmpty then true else false
  else
    hasSubstr ['U', 'P'] env.showOut

/-- One character of the regex pattern `\d` (ASCII digit). -/
def isDigitCh (c : Char) : Bool := c.isDigit

/-- Regex piece `\d+`, greedy, anchored at the head of the input; returns
the digits matched and the rest, or `none` when no digit leads. -/
def matchDigits1 (s : Str) : Option (Str × Str) :=
  let ds := s.takeWhile isDigitCh
  if ds.isEmpty then none else some (ds, s.dropWhile isDigitCh)

/-- A literal character in a regex, anchored at the head of the input. -/
def matchLit (c : Char) : Str → Option (Str × Str)
  | x :: rest => if x = c then some ([x], rest) else none
  | [] => none

/-- Regex piece `.` (any character except a newline), anchored. -/
def matchAny : Str → Option (Char × Str)
  | x :: rest => if x = '\n' then none else some (x, rest)
  | [] => none

/-- The pattern `\d+\.\d+\.\d+\.\d+` (`_ipMatchRegex`, `link.py` 77),
anchored at the head of the input.  No backtracking is needed: `.` is not
a digit, so the greedy `\d+` is exact. -/
def matchIPv4 (s : Str) : Option (Str × Str) := do
  let (d1, r1) ← matchDigits1 s
  let (p1, r2) ← matchLit '.' r1
  let (d2, r3) ← matchDigits1 r2
  let (p2, r4) ← matchLit '.' r3
  let (d3, r5) ← matchDigits1 r4
  let (p3, r6) ← matchLit '.' r5
  let (d4, r7) ← matchDigits1 r6
  some (d1 ++ p1 ++ d2 ++ p2 ++ d3 ++ p3 ++ d4, r7)

/-- Two `.` regex characters followed by a literal, anchored. -/
def matchPairSep (sep : Char) (s : Str) : Option (Str × Str) := do
  let (c1, r1) ← matchAny s
  let (c2, r2) ← matchAny r1
  let (p, r3) ← matchLit sep r2
  some ([c1, c2] ++ p, r3)

/-- The pattern `..:..:..:..:..:..` (`_macMatchRegex`, `link.py` 78),
anchored at the head of the input. -/
def matchMAC (s : Str) : Option (Str × Str) := do
  let (g1, r1) ← matchPairSep ':' s
  let (g2, r2) ← matchPairSep ':' r1
  let (g3, r3) ← matchPairSep ':' r2
  let (g4, r4) ← matchPairSep ':' r3
  let (g5, r5) ← matchPairSep ':' r4
  let (c1, r6) ← matchAny r5
  let (c2, r7) ← matchAny r6
  some (g1 ++ g2 ++ g3 ++ g4 ++ g5 ++ [c1, c2], r7)

/-- `re.findall` for an anchored matcher: scan left to right, collecting
non-overlapping matches, advancing one character when no match starts at
the current position.  Fuelled by the input length (every step consumes at
least one character). -/
def findallAux (m : Str → Option (Str × Str)) : Nat → Str → List Str
  | 0, _ => []
  | _ + 1, [] => []
  | fuel + 1, c :: rest =>
    match m (c :: rest) with
    | some (mt, r2) => mt :: findallAux m fuel r2
    | none => findallAux m fuel rest

/-- `self._ipMatchRegex.findall(text)`. -/
def findallIPv4 (s : Str) : List Str := findallAux matchIPv4 s.length s

/-- `self._macMatchRegex.findall(text)`. -/
def findallMAC (s : Str) : List Str := findallAux matchMAC s.length s

/-- `updateIP` (`link.py` 80-88): scans the `ip addr show` output for an
IPv4 address; `ips[0] if ips else None`. -/
def updateIP (st : Intf) (cmdOut : Str) : Option Str × Intf :=
  let ips := findallIPv4 cmdOut
  (ips.head?, { st with ip := ips.head? })

/-- `updateMAC` (`link.py` 90-95). -/
def updateMAC (st : Intf) (cmdOut : Str) : Option Str × Intf :=
  let macs := findallMAC cmdOut
  (macs.head?, { st with mac := macs.head? })

/-- `updateAddr` (`link.py` 101-108): one combined scan for both. -/
def updateAddr (st : Intf) (cmdOut : Str) : (Option Str × Option Str) × Intf :=
  let ips := findallIPv4 cmdOut
  let macs := findallMAC cmdOut
  ((ips.head?, macs.head?), { st with ip := ips.head?, mac := macs.head? })

/-- `setParam` (`link.py` 145-162) specialised to a value of type `β`:
when the value is `None` the method is skipped and the results dict is
unchanged, otherwise the method runs and its result is recorded under
`key`. -/
def setParam (r : List (Str × RVal)) (key : Str) (value : Option β)
    (run : β → Except PyErr (RVal × Intf)) (st : Intf) :
    Except PyErr (List (Str × RVal) × Intf) :=
  match value with
  | none => .ok (r, st)
  | some v =>
    match run v with
    | .error e => .error e
    | .ok (res, st2) => .ok (r ++ [(key, res)], st2)

/-- `config` (`link.py` 164-182).  Order of effects: the bare `self.setIP(ip)`
call, then `setMAC` via `setParam`, then `setIP` via `setParam` (with no
prefix length), then `isUp`, then `ipAddr`.  The bare leading call passes
`ip` straight to `setIP`, so `ip = None` raises `TypeError` and a plain
address without `/` raises the missing-prefix exception. -/
def config (st : Intf) (mac ip ipAddr2 : Option Str) (up : Bool)
    (env : CmdEnv) : Except PyErr (List (Str × RVal) × Intf) := do
  let r : List (Str × RVal) := []
  let (st, _) ← setIP st ip none env
  let (r, st) ← setParam r ['m', 'a', 'c'] mac
    (fun m => let (st2, out) := setMAC st m env; .ok (.str out, st2)) st
  let (r, st) ← setParam r ['i', 'p'] ip
    (fun s => match setIP st (some s) none env with
      | .error e => .error e
      | .ok (st2, out) => .ok (.str out, st2)) st
  let (r, st) ← setParam r ['u', 'p'] (some up)
    (fun b => .ok (.bool (isUp b env), st)) st
  let (r, st) ← setParam r ['i', 'p', 'A', 'd', 'd', 'r'] ipAddr2
    (fun _ => .ok (.str env.addOut, st)) st
  .ok (r, st)

/-- The loopback interface name. -/
def loName : Str := ['l', 'o']

/-- The field initialisation part of `IntfSixLoWPAN.__init__`
(`link.py` 17-27), up to but not including the final `self.config(**params)`
call: fields are set and, when the name is `"lo"`, the address is pre-set
to `127.0.0.1/8` with no external command run. -/
def initFields (name : Str) (mac : Option Str) : Intf :=
  let st : Intf := { name := name, mac := mac, ip := none, prefixLen := none }
  if name = loName then
    { st with ip := some ['1', '2', '7', '.', '0', '.', '0', '.', '1'],
              prefixLen := some (.int 8) }
  else st

/-- The whole of `IntfSixLoWPAN.__init__` (`link.py` 11-37): field setup,
then `self.config(**params)`.  `mac` is a named constructor argument and is
never forwarded into `config`'s own `mac` parameter. -/
def intfInit (name : Str) (mac : Option Str) (ip ipAddr2 : Option Str)
    (up : Bool) (env : CmdEnv) : Except PyErr (List (Str × RVal) × Intf) :=
  config (initFields name mac) none ip ipAddr2 up env

/-- Python truthiness of the optional-string parameter `intfName`:
falsy when `None` or empty. -/
def pyFalsy : Option Str → Bool
  | none => true
  | some s => s.isEmpty

/-- The node data `configIface` reads (`node.name`, `node.params['wlan']`,
`node.params['ip']`). -/
structure LNode where
  name : Str
  wlan : List Str
  ipList : List Str
deriving DecidableEq

/-- `sixLoWPANLink.wpanName` (`link.py` 246-250): `node.name + '-' + ifacename`. -/
def wpanName (node : LNode) (ifacename : Str) : Str :=
  node.name ++ ['-'] ++ ifacename

/-- `sixLoWPANLink.configIface` (`link.py` 216-244).  The shell commands of
lines 219-225 read `node.params['wlan'][0]` (IndexError on an empty list)
and `params['panid']` (KeyError when absent); the local `intfName1` is
assigned only in the `if not intfName` branch, so a truthy `intfName`
leaves it unbound and line 239 raises `UnboundLocalError`; line 238 reads
`node.params['ip'][0]` first.  On success the constructed handle's results
and state are returned together with the name used. -/
def configIface (node : LNode) (port : Option Nat) (intfName : Option Str)
    (addr : Option Str) (panid : Option Str) (newPort : Nat)
    (env : CmdEnv) : Except PyErr (Str × (List (Str × RVal) × Intf)) := do
  let _w0 ← match node.wlan.head? with
    | none => Except.error PyErr.indexError
    | some w => Except.ok w
  let _pid ← match panid with
    | none => Except.error PyErr.keyError
    | some p => Except.ok p
  let _port := port.getD newPort
  let intfName1 : Option Str :=
    if pyFalsy intfName then some (wpanName node ['l', 'o', 'w', 'p', 'a', 'n'])
    else none
  let ip0 ← match node.ipList.head? with
    | none => Except.error PyErr.indexError
    | some x => Except.ok x
  let iname ← match intfName1 with
    | none => Except.error PyErr.unboundLocalError
    | some x => Except.ok x
  let res ← intfInit iname addr (some ip0) none true env
  .ok (iname, res)

/-!  Embedding of `module.py`. -/

/-- The character `%d` produces for a single decimal digit (`module.py` 61;
the argument is always a value of `n % 10` or a number below 10). -/
def digitChar (d : Nat) : Char :=
  match d with
  | 0 => '0' | 1 => '1' | 2 => '2' | 3 => '3' | 4 => '4'
  | 5 => '5' | 6 => '6' | 7 => '7' | 8 => '8' | _ => '9'

/-- The decimal digits of a number, most significant first, with recursion
fuel (so that the definition is structural and kernel-reducible);
`natDigitsAux_congr` below shows any fuel above the number works. -/
def natDigitsAux : Nat → Nat → Str
  | 0, _ => []
  | fuel + 1, n =>
    if n < 10 then [digitChar n]
    else natDigitsAux fuel (n / 10) ++ [digitChar (n % 10)]

/-- The decimal digits of a number, most significant first (`%d`). -/
def natDigits (n : Nat) : Str := natDigitsAux (n + 1) n

/-- Python's `"%02d" % n`: the decimal digits, zero-padded to width two. -/
def format02d (n : Nat) : Str :=
  if n < 10 then '0' :: natDigits n else natDigits n

/-- The candidate naming prefix `"mn%02ds" % num` (`module.py` 61). -/
def mnPfx (num : Nat) : Str := 'm' :: 'n' :: (format02d num ++ ['s'])

/-- `any(phy.startswith(candidate) for phy in phys)`: the collision test the
`while not numokay` loop performs for one candidate counter
(`module.py` 60-67). -/
def collides (phys : List Str) (num : Nat) : Bool :=
  phys.any (fun phy => (mnPfx num).isPrefixOf phy)

/-- The `while not numokay` loop of `__create_hwsim_mgmt_devices`
(`module.py` 57-67): try counters `num, num+1, …` and return the first one
whose candidate prefix collides with no existing name.  The source loop is
unbounded; here it carries fuel, and `findNum_some` below shows that
`phys.length + 1` fuel always suffices. -/
def findNum (phys : List Str) : Nat → Nat → Option Nat
  | 0, _ => none
  | fuel + 1, num => if collides phys num then findNum phys fuel (num + 1) else some num

/-- The counter value the prefix-generation loop settles on, started like the
source at `num = 0`. -/
def derivedNum (phys : List Str) : Option Nat :=
  findNum phys (phys.length + 1) 0

/-- The generated naming prefix `cls.prefix` (`module.py` 57-67). -/
def derivedPfx (phys : List Str) : Option Str :=
  (derivedNum phys).map mnPfx

/-- Python string comparison (used by `sorted`): lexicographic by code
point. -/
def lexLe : Str → Str → Bool
  | [], _ => true
  | _ :: _, [] => false
  | a :: as, b :: bs =>
    if a.toNat < b.toNat then true
    else if a.toNat = b.toNat then lexLe as bs else false

/-- The key comparison of `cls.wlan_list.sort(key=len, reverse=False)`. -/
def lenLe (a b : Str) : Bool := decide (a.length ≤ b.length)

/-- `get_virtual_wlan` (`module.py` 150-160) on the raw `split("\n")` output:
drop the trailing element (`cls.wlans.pop()`), sort lexicographically
(`sorted`), then stably re-sort by name length (`sort(key=len)`).  Python's
sorts are stable; both are modelled by the stable `List.mergeSort`. -/
def get_virtual_wlan (raw : List Str) : List Str :=
  ((raw.dropLast).mergeSort lexLe).mergeSort lenLe

/-- The fields of a node that `assign_iface` reads: whether the node is a
`Station`/`Car` instance or has `'inNamespace'` in its params, and its
requested interface names `node.params['wlan']`. -/
structure ANode where
  isolated : Bool
  wlanNames : List Str
deriving DecidableEq

/-- The class-level allocator state that `assign_iface` mutates:
`cls.wlan_list` (the free-device pool) and `cls.phyID` (the global
counter). -/
structure AState where
  pool : List Str
  ctr : Nat
deriving DecidableEq

/-- One record of what an iteration of the inner loop of `assign_iface` did:
`node.phyID[wlan] = cls.phyID` and the rename of the pool head to the
node's requested interface name. -/
structure Assignment where
  nodeIdx : Nat
  slot : Nat
  phy : Nat
  device : Str
  target : Str
deriving DecidableEq

/-- The inner loop of `assign_iface` (`module.py` 199-212) over one node's
`wlan` slots: record the fresh PHY id (post-increment of the global
counter), then read `cls.wlan_list[0]` — `none` models the `IndexError`
on an exhausted pool, which the `except` turns into `exit(1)` — rename it
to the requested name and `pop(0)` it. -/
def assignNode (nodeIdx : Nat) : Nat → List Str → AState → List Assignment →
    Option (AState × List Assignment)
  | _, [], st, acc => some (st, acc)
  | slot, w :: ws, st, acc =>
    match st.pool with
    | [] => none
    | d :: ds =>
      assignNode nodeIdx (slot + 1) ws { pool := ds, ctr := st.ctr + 1 }
        (acc ++ [⟨nodeIdx, slot, st.ctr, d, w⟩])

/-- The outer loop of `assign_iface` (`module.py` 195-212): isolated nodes
get their slots assigned in order, other nodes are skipped. -/
def assignLoop : List ANode → Nat → AState → List Assignment →
    Option (AState × List Assignment)
  | [], _, st, acc => some (st, acc)
  | n :: ns, idx, st, acc =>
    if n.isolated then
      match assignNode idx 0 n.wlanNames st acc with
      | none => none
      | some (st2, acc2) => assignLoop ns (idx + 1) st2 acc2
    else assignLoop ns (idx + 1) st acc

/-- `assign_iface` (`module.py` 181-218), with every external step (namespace
move, `getPhy`, shell renames) succeeding; `none` models the fatal
`exit(1)` path. -/
def assign_iface (nodes : List ANode) (st : AState) :
    Option (AState × List Assignment) :=
  assignLoop nodes 0 st []

/-- The total number of radio slots the run assigns: the summed `wlan` list
lengths of the isolated nodes. -/
def totalSlots (nodes : List ANode) : Nat :=
  (nodes.map (fun n => if n.isolated then n.wlanNames.length else 0)).sum

/-- `[s, s+1, …, s+n-1]`: the PHY ids handed out by `n` post-increments of a
counter starting at `s`. -/
def rangeFrom (s n : Nat) : List Nat := (List.range n).map (fun i => s + i)

/-!  Claims about `link.py`. -/

/-- Claim C2: the claim says `config()` with `mac`, `ip`, `ipAddr` absent and
the default `up=true` performs only the up/down step and returns a mapping
with only the `up` key, the bare leading `setIP(ip)` acting as a no-op.
The code instead raises `TypeError` from evaluating `'/' in None` inside
that bare `setIP(None)` call, before any step runs: for every handle state
and every command environment the call errors out. -/
theorem claim_C2_config_defaults_raises (st : Intf) (env : CmdEnv) :
    config st none none none true env = .error .typeError := rfl

/-- Claim C4: `setIP` on an address string without a `/` and with no explicit
prefix length always fails with the missing-prefix exception
(ConfigurationError); no updated handle is produced, so neither `ip` nor
`prefixLen` changes. -/
theorem claim_C4_setIP_missing_prefix (st : Intf) (s : Str) (env : CmdEnv)
    (h : '/' ∉ s) : setIP st (some s) none env = .error .configurationError := by
  simp [setIP, h]

/-- Witness for C4 at the address `10.0.0.1` with no prefix length. -/
theorem claim_C4_witness :
    ('/' ∉ (['1', '0', '.', '0', '.', '0', '.', '1'] : Str)) ∧
    setIP ⟨['e', '0'], none, none, none⟩
      (some ['1', '0', '.', '0', '.', '0', '.', '1']) none ⟨[], [], [], [], []⟩ =
      .error .configurationError :=
  ⟨by decide, claim_C4_setIP_missing_prefix _ _ _ (by decide)⟩

/-- Claim C7: the claim says constructing a handle named `"lo"` always yields
`ip = "127.0.0.1"` and `prefixLen = 8` with no external query.  The
field-initialisation phase does pre-set exactly those values (first
conjunct; `initFields` takes no command environment, so no external query
is involved).  But the constructor then calls `config(**params)`, whose
bare `setIP(ip)` call raises `TypeError` whenever no `ip` parameter was
supplied, so the construction never completes (second conjunct). -/
theorem claim_C7_lo_construction :
    (∀ mac, (initFields loName mac).ip = some ['1', '2', '7', '.', '0', '.', '0', '.', '1'] ∧
      (initFields loName mac).prefixLen = some (.int 8)) ∧
    (∀ mac env, intfInit loName mac none none true env = .error .typeError) :=
  ⟨fun _ => ⟨rfl, rfl⟩, fun _ _ => rfl⟩

/-- Claim C8: `isUp` with `setUp = true` returns `true` exactly when the
output of the underlying `ip link set up` command is empty; any non-empty
output yields `false`.  The model is a total function, so no exception is
possible in either case. -/
theorem claim_C8_isUp_setUp_empty_iff (env : CmdEnv) :
    isUp true env = true ↔ env.upOut = [] := by
  simp [isUp, List.isEmpty_iff]

/-- Claim C9: `configIface` with a non-empty explicit `intfName` never assigns
the local `intfName1`, so (provided the earlier external reads succeed:
the node has a `wlan` entry, a `panid` parameter and an `ip` entry) the
call raises `UnboundLocalError` at `params['name'] = intfName1`, before
any `IntfSixLoWPAN` is constructed; the supplied name is never used. -/
theorem claim_C9_configIface_unbound_local (node : LNode) (port : Option Nat)
    (s : Str) (addr : Option Str) (p : Str) (np : Nat) (env : CmdEnv)
    (hw : node.wlan ≠ []) (hip : node.ipList ≠ []) (hs : s ≠ []) :
    configIface node port (some s) addr (some p) np env =
      .error .unboundLocalError := by
  obtain ⟨w, ws, hw2⟩ := List.exists_cons_of_ne_nil hw
  obtain ⟨i0, is2, hip2⟩ := List.exists_cons_of_ne_nil hip
  simp [configIface, hw2, hip2, pyFalsy, List.isEmpty_iff, hs, bind, Except.bind]

/-- Witness for C9: a well-formed node and a caller-supplied interface name. -/
theorem claim_C9_witness :
    configIface ⟨['h', '1'], [['w', '0']], [['a']]⟩ none (some ['g']) none
      (some ['b']) 3 ⟨[], [], [], [], []⟩ = .error .unboundLocalError :=
  claim_C9_configIface_unbound_local _ _ _ _ _ _ _ (by decide) (by decide) (by decide)

/-- Claim C10: `updateIP`, `updateMAC` and `updateAddr` are total on arbitrary
command output: when the fixed IPv4 or MAC pattern finds no match, the
corresponding field is set to `None` and `None` is returned; the
`xs[0] if xs else None` guard means no exception can arise from indexing
an empty match list (the model functions are total). -/
theorem claim_C10_update_total_no_match (st : Intf) (out : Str) :
    (findallIPv4 out = [] → updateIP st out = (none, { st with ip := none })) ∧
    (findallMAC out = [] → updateMAC st out = (none, { st with mac := none })) ∧
    (findallIPv4 out = [] → findallMAC out = [] →
      updateAddr st out = ((none, none), { st with ip := none, mac := none })) := by
  refine ⟨fun h => ?_, fun h => ?_, fun h1 h2 => ?_⟩ <;>
    simp [updateIP, updateMAC, updateAddr, *]

/-- Witness for C10 on the matchless output `abc`. -/
theorem claim_C10_witness :
    updateIP ⟨['e'], none, none, none⟩ ['a', 'b', 'c'] =
      (none, ⟨['e'], none, none, none⟩) ∧
    updateMAC ⟨['e'], none, none, none⟩ ['a', 'b', 'c'] =
      (none, ⟨['e'], none, none, none⟩) ∧
    updateAddr ⟨['e'], none, none, none⟩ ['a', 'b', 'c'] =
      ((none, none), ⟨['e'], none, none, none⟩) := by
  have h := claim_C10_update_total_no_match ⟨['e'], none, none, none⟩ ['a', 'b', 'c']
  exact ⟨h.1 (by decide), h.2.1 (by decide), h.2.2 (by decide) (by decide)⟩

/-!  Claims about `assign_iface`. -/

/-- Unfolding `rangeFrom` on the left. -/
theorem rangeFrom_succ (s n : Nat) : rangeFrom s (n + 1) = s :: rangeFrom (s + 1) n := by
  simp only [rangeFrom, List.range_succ_eq_map, List.map_cons, List.map_map, Nat.add_zero]
  refine congrArg (s :: ·) (List.map_congr_left fun i _ => ?_)
  simp [Function.comp]
  omega

/-- `rangeFrom` splits over a sum of lengths. -/
theorem rangeFrom_add (s m n : Nat) :
    rangeFrom s (m + n) = rangeFrom s m ++ rangeFrom (s + m) n := by
  induction m generalizing s with
  | zero => simp [rangeFrom]
  | succ m ih =>
    have e1 : m + 1 + n = (m + n) + 1 := by omega
    have e2 : s + 1 + m = s + (m + 1) := by omega
    rw [e1, rangeFrom_succ s (m + n), rangeFrom_succ s m, ih (s + 1), e2,
      List.cons_append]

/-- What the inner slot loop of `assign_iface` does when the pool holds at
least as many devices as the node has slots: it succeeds, the pool loses
exactly its first `ws.length` entries, the counter advances by `ws.length`,
and the appended records carry the popped head devices in pool order and
consecutive PHY ids starting at the old counter. -/
theorem assignNode_spec (nodeIdx : Nat) (ws : List Str) (st : AState)
    (slot : Nat) (acc : List Assignment) (h : ws.length ≤ st.pool.length) :
    ∃ recs, assignNode nodeIdx slot ws st acc =
        some (⟨st.pool.drop ws.length, st.ctr + ws.length⟩, acc ++ recs) ∧
      recs.map (fun a => a.device) = st.pool.take ws.length ∧
      recs.map (fun a => a.phy) = rangeFrom st.ctr ws.length := by
  induction ws generalizing st slot acc with
  | nil =>
    refine ⟨[], ?_, by simp, by simp [rangeFrom]⟩
    simp [assignNode]
  | cons w ws ih =>
    obtain ⟨pool, ctr⟩ := st
    match pool, h with
    | [], h => simp at h
    | d :: ds, h =>
      have h2 : ws.length ≤ ds.length := by simpa using h
      obtain ⟨recs, he, hdev, hphy⟩ :=
        ih ⟨ds, ctr + 1⟩ (slot + 1) (acc ++ [⟨nodeIdx, slot, ctr, d, w⟩]) h2
      refine ⟨⟨nodeIdx, slot, ctr, d, w⟩ :: recs, ?_, ?_, ?_⟩
      · simp only [assignNode, he, List.append_assoc, List.singleton_append,
          List.drop_succ_cons, List.length_cons]
        refine congrArg some (Prod.ext ?_ rfl)
        simp
        omega
      · simp [hdev]
      · simp only [List.map_cons, hphy, List.length_cons]
        rw [rangeFrom_succ]

/-- What the node loop of `assign_iface` does when the pool holds at least
`totalSlots nodes` devices: it succeeds, consuming exactly the first
`totalSlots nodes` pool entries in order and handing out consecutive PHY
ids starting at the old counter. -/
theorem assignLoop_spec (nodes : List ANode) (idx : Nat) (st : AState)
    (acc : List Assignment) (h : totalSlots nodes ≤ st.pool.length) :
    ∃ recs, assignLoop nodes idx st acc =
        some (⟨st.pool.drop (totalSlots nodes), st.ctr + totalSlots nodes⟩, acc ++ recs) ∧
      recs.map (fun a => a.device) = st.pool.take (totalSlots nodes) ∧
      recs.map (fun a => a.phy) = rangeFrom st.ctr (totalSlots nodes) := by
  induction nodes generalizing idx st acc with
  | nil =>
    refine ⟨[], ?_, by simp [totalSlots], by simp [totalSlots, rangeFrom]⟩
    simp [assignLoop, totalSlots]
  | cons n ns ih =>
    by_cases hiso : n.isolated
    · have hts : totalSlots (n :: ns) = n.wlanNames.length + totalSlots ns := by
        simp [totalSlots, hiso]
      rw [hts] at h
      have h1 : n.wlanNames.length ≤ st.pool.length := by omega
      obtain ⟨recs1, he1, hdev1, hphy1⟩ := assignNode_spec idx n.wlanNames st 0 acc h1
      have h2 : totalSlots ns ≤ (st.pool.drop n.wlanNames.length).length := by
        simp [List.length_drop]
        omega
      obtain ⟨recs2, he2, hdev2, hphy2⟩ :=
        ih (idx + 1) ⟨st.pool.drop n.wlanNames.length, st.ctr + n.wlanNames.length⟩
          (acc ++ recs1) h2
      have hpool : List.drop (totalSlots ns) (List.drop n.wlanNames.length st.pool)
          = List.drop (n.wlanNames.length + totalSlots ns) st.pool := by
        rw [List.drop_drop, Nat.add_comm]
      have hctr : st.ctr + n.wlanNames.length + totalSlots ns
          = st.ctr + (n.wlanNames.length + totalSlots ns) := by omega
      refine ⟨recs1 ++ recs2, ?_, ?_, ?_⟩
      · rw [hpool, hctr] at he2
        simp [assignLoop, hiso, he1, he2, hts, List.append_assoc]
      · rw [hts, List.take_add, List.map_append, hdev1, hdev2]
      · rw [hts, rangeFrom_add, List.map_append, hphy1, hphy2]
    · have hts : totalSlots (n :: ns) = totalSlots ns := by
        simp [totalSlots, hiso]
      rw [hts] at h ⊢
      obtain ⟨recs, he, hdev, hphy⟩ := ih (idx + 1) st acc h
      exact ⟨recs, by simp [assignLoop, hiso, he], hdev, hphy⟩

/-- Claim C1: over nodes whose requested radio slots total `N`, with at least
`N` devices in the free pool (and every external step succeeding, as the
model assumes), `assign_iface` consumes exactly `N` devices, each popped
from the head of the pool (the consumed devices are precisely
`pool.take N`, in order), leaving the pool equal to `pool.drop N` — hence
of size `originalSize - N`, and containing no popped device when the pool
names were distinct — and assigning no device name to two different
(node, slot) pairs. -/
theorem claim_C1_assign_iface_pool (nodes : List ANode) (st : AState)
    (hN : totalSlots nodes ≤ st.pool.length) (hnd : st.pool.Nodup) :
    ∃ st2 recs, assign_iface nodes st = some (st2, recs) ∧
      recs.length = totalSlots nodes ∧
      st2.pool = st.pool.drop (totalSlots nodes) ∧
      st2.pool.length = st.pool.length - totalSlots nodes ∧
      recs.map (fun a => a.device) = st.pool.take (totalSlots nodes) ∧
      (recs.map (fun a => a.device)).Nodup ∧
      ∀ a ∈ recs, a.device ∉ st2.pool := by
  obtain ⟨recs, he, hdev, hphy⟩ := assignLoop_spec nodes 0 st [] hN
  have hlen : recs.length = totalSlots nodes := by
    have := congrArg List.length hdev
    simpa [List.length_take, Nat.min_eq_left hN] using this
  have hsplit := List.take_append_drop (totalSlots nodes) st.pool
  have hnd2 : (st.pool.take (totalSlots nodes)).Nodup ∧
      (st.pool.take (totalSlots nodes)).Disjoint (st.pool.drop (totalSlots nodes)) := by
    rw [← hsplit] at hnd
    have h2 := List.nodup_append.mp hnd
    exact ⟨h2.1, h2.2.2⟩
  refine ⟨⟨st.pool.drop (totalSlots nodes), st.ctr + totalSlots nodes⟩, recs,
    by simpa [assign_iface] using he, hlen, rfl, by simp [List.length_drop], hdev, ?_, ?_⟩
  · rw [hdev]
    exact hnd2.1
  · intro a ha hmem
    exact hnd2.2 (hdev ▸ List.mem_map_of_mem (fun r => r.device) ha) hmem

/-- Witness for C1: one isolated node with one slot, a distinct two-device
pool. -/
theorem claim_C1_witness :
    ∃ st2 recs,
      assign_iface [⟨true, [['n', '0']]⟩] ⟨[['w', '0'], ['w', '1']], 0⟩ =
        some (st2, recs) ∧
      recs.length = totalSlots [⟨true, [['n', '0']]⟩] ∧
      st2.pool = [['w', '0'], ['w', '1']].drop (totalSlots [⟨true, [['n', '0']]⟩]) ∧
      st2.pool.length = 2 - totalSlots [⟨true, [['n', '0']]⟩] ∧
      recs.map (fun a => a.device) =
        [['w', '0'], ['w', '1']].take (totalSlots [⟨true, [['n', '0']]⟩]) ∧
      (recs.map (fun a => a.device)).Nodup ∧
      ∀ a ∈ recs, a.device ∉ st2.pool :=
  claim_C1_assign_iface_pool [⟨true, [['n', '0']]⟩] ⟨[['w', '0'], ['w', '1']], 0⟩
    (by decide) (by decide)

/-- Claim C5: across one run of `assign_iface`, the global counter hands each
(node, slot) pair a fresh id by post-increment: the recorded PHY ids are
exactly `ctr, ctr+1, …` in assignment order, hence pairwise distinct and
strictly increasing; in particular two isolated nodes with two slots each
receive four distinct ascending ids. -/
theorem claim_C5_phy_ids (nodes : List ANode) (st : AState)
    (hN : totalSlots nodes ≤ st.pool.length) :
    ∃ st2 recs, assign_iface nodes st = some (st2, recs) ∧
      st2.ctr = st.ctr + totalSlots nodes ∧
      recs.map (fun a => a.phy) = rangeFrom st.ctr (totalSlots nodes) ∧
      (recs.map (fun a => a.phy)).Pairwise (· < ·) := by
  obtain ⟨recs, he, hdev, hphy⟩ := assignLoop_spec nodes 0 st [] hN
  refine ⟨⟨st.pool.drop (totalSlots nodes), st.ctr + totalSlots nodes⟩, recs,
    by simpa [assign_iface] using he, rfl, hphy, ?_⟩
  rw [hphy]
  exact (List.pairwise_lt_range _).map _ (fun a b hab => by omega)

/-- Witness for C5: two isolated nodes with two slots each and a four-device
pool; the four PHY ids handed out are 0, 1, 2, 3. -/
theorem claim_C5_witness :
    ∃ st2 recs,
      assign_iface [⟨true, [['a', '0'], ['a', '1']]⟩, ⟨true, [['b', '0'], ['b', '1']]⟩]
          ⟨[['w', '0'], ['w', '1'], ['w', '2'], ['w', '3']], 0⟩ = some (st2, recs) ∧
      st2.ctr = 0 + totalSlots [⟨true, [['a', '0'], ['a', '1']]⟩, ⟨true, [['b', '0'], ['b', '1']]⟩] ∧
      recs.map (fun a => a.phy) =
        rangeFrom 0 (totalSlots [⟨true, [['a', '0'], ['a', '1']]⟩, ⟨true, [['b', '0'], ['b', '1']]⟩]) ∧
      (recs.map (fun a => a.phy)).Pairwise (· < ·) :=
  claim_C5_phy_ids
    [⟨true, [['a', '0'], ['a', '1']]⟩, ⟨true, [['b', '0'], ['b', '1']]⟩]
    ⟨[['w', '0'], ['w', '1'], ['w', '2'], ['w', '3']], 0⟩ (by decide)

/-!  Claim C6: the free-pool ordering built by `get_virtual_wlan`. -/

/-- `lexLe` is transitive. -/
theorem lexLe_trans : ∀ a b c : Str, lexLe a b = true → lexLe b c = true →
    lexLe a c = true := by
  intro a
  induction a with
  | nil => intro b c _ _; rfl
  | cons x xs ih =>
    intro b c hab hbc
    match b, c with
    | [], _ => simp [lexLe] at hab
    | _ :: _, [] => simp [lexLe] at hbc
    | y :: ys, z :: zs =>
      simp only [lexLe] at hab hbc ⊢
      by_cases h1 : x.toNat < y.toNat
      · by_cases h2 : y.toNat < z.toNat
        · simp [show x.toNat < z.toNat by omega]
        · by_cases h2e : y.toNat = z.toNat
          · simp [show x.toNat < z.toNat by omega]
          · simp [h2, h2e] at hbc
      · by_cases h1e : x.toNat = y.toNat
        · simp [h1, h1e] at hab
          by_cases h2 : y.toNat < z.toNat
          · simp [show x.toNat < z.toNat by omega]
          · by_cases h2e : y.toNat = z.toNat
            · simp [h2, h2e] at hbc
              simp [show ¬ x.toNat < z.toNat by omega, show x.toNat = z.toNat by omega]
              exact ih ys zs hab hbc
            · simp [h2, h2e] at hbc
        · simp [h1, h1e] at hab

/-- `lexLe` is total. -/
theorem lexLe_total : ∀ a b : Str, (lexLe a b || lexLe b a) = true := by
  intro a
  induction a with
  | nil => intro b; simp [lexLe]
  | cons x xs ih =>
    intro b
    match b with
    | [] => simp [lexLe]
    | y :: ys =>
      simp only [lexLe]
      by_cases h1 : x.toNat < y.toNat
      · simp [h1]
      · by_cases h1e : x.toNat = y.toNat
        · simpa [h1, h1e, show ¬ y.toNat < x.toNat by omega] using ih ys
        · simp [h1, h1e, show y.toNat < x.toNat by omega]

/-- `lenLe` is transitive. -/
theorem lenLe_trans : ∀ a b c : Str, lenLe a b = true → lenLe b c = true →
    lenLe a c = true := by
  intro a b c hab hbc
  simp [lenLe] at *
  omega

/-- `lenLe` is total. -/
theorem lenLe_total : ∀ a b : Str, (lenLe a b || lenLe b a) = true := by
  intro a b
  simp [lenLe]
  omega

/-- Stability of `mergeSort`, phrased as a `Pairwise` property: sorting a list
that is already `Pairwise q` with a transitive, total comparator `le`
yields a list that is `Pairwise le` and, on comparator ties, still
`Pairwise q` (ties keep their input order).  Proved via `mergeSort_enum`,
which reduces stability to sorting the position-tagged list. -/
theorem pairwise_mergeSort_stable {α : Type} {le : α → α → Bool} {q : α → α → Prop}
    (trans : ∀ a b c : α, le a b → le b c → le a c)
    (total : ∀ a b : α, le a b || le b a)
    {l : List α} (hq : l.Pairwise q) :
    (l.mergeSort le).Pairwise (fun a b => le a b = true ∧ (le b a = true → q a b)) := by
  rw [← List.mergeSort_enum, List.pairwise_map]
  have s := List.sorted_mergeSort
    (List.enumLE_trans trans) (List.enumLE_total total) l.enum
  have p := List.mergeSort_perm l.enum (List.enumLE le)
  have ndfst : (l.enum.map Prod.fst).Nodup := by
    rw [List.enum_map_fst]; exact List.nodup_range _
  have nd : l.enum.Nodup := ndfst.of_map
  have nd2 : (List.mergeSort l.enum (List.enumLE le)).Nodup := nd.perm p.symm
  refine List.Pairwise.imp_of_mem ?_ (s.and nd2)
  intro x y hx hy hxy
  obtain ⟨hle, hne⟩ := hxy
  have hx2 : l[x.1]? = some x.2 := List.mem_enum_iff_getElem?.mp (p.subset hx)
  have hy2 : l[y.1]? = some y.2 := List.mem_enum_iff_getElem?.mp (p.subset hy)
  simp only [List.enumLE] at hle
  by_cases h1 : le x.2 y.2 = true
  · refine ⟨h1, fun hba => ?_⟩
    simp only [h1, hba, if_true, decide_eq_true_eq] at hle
    have hne2 : x.1 ≠ y.1 := by
      intro he
      rw [he, hy2] at hx2
      exact hne (Prod.ext he (by simpa using hx2.symm))
    have hlt : x.1 < y.1 := by omega
    obtain ⟨hx3, hx4⟩ := List.getElem?_eq_some.mp hx2
    obtain ⟨hy3, hy4⟩ := List.getElem?_eq_some.mp hy2
    have := List.pairwise_iff_getElem.mp hq x.1 y.1 hx3 hy3 hlt
    rwa [hx4, hy4] at this
  · simp [h1] at hle

/-- Claim C6: `get_virtual_wlan` populates the pool with the discovered names
(the raw listing minus its popped trailing entry), sorted lexicographically
and then stably re-sorted by increasing length: the result is a permutation
of the names in which shorter names come first and names of equal length
appear in lexicographic order. -/
theorem claim_C6_pool_order (raw : List Str) :
    (get_virtual_wlan raw).Perm raw.dropLast ∧
    (get_virtual_wlan raw).Pairwise (fun a b =>
      a.length < b.length ∨ (a.length = b.length ∧ lexLe a b = true)) := by
  constructor
  · exact (List.mergeSort_perm _ _).trans (List.mergeSort_perm _ _)
  · have h1 : ((raw.dropLast).mergeSort lexLe).Pairwise (fun a b => lexLe a b = true) :=
      List.sorted_mergeSort lexLe_trans lexLe_total _
    have h2 := pairwise_mergeSort_stable lenLe_trans lenLe_total h1
    refine h2.imp ?_
    intro a b hab
    obtain ⟨h3, h4⟩ := hab
    simp only [lenLe, decide_eq_true_eq] at h3 h4
    rcases Nat.lt_or_ge a.length b.length with h5 | h5
    · exact Or.inl h5
    · exact Or.inr ⟨by omega, h4 (by omega)⟩

/-!  Claim C3: the naming-prefix derivation loop. -/

/-- `natDigitsAux` does not depend on the fuel once the fuel exceeds the
number. -/
theorem natDigitsAux_congr : ∀ n fuel1 fuel2, n < fuel1 → n < fuel2 →
    natDigitsAux fuel1 n = natDigitsAux fuel2 n := by
  intro n
  induction n using Nat.strong_induction_on with
  | _ n ih =>
    intro fuel1 fuel2 h1 h2
    match fuel1, fuel2 with
    | f1 + 1, f2 + 1 =>
      simp only [natDigitsAux]
      by_cases h : n < 10
      · simp [h]
      · simp only [h, if_false]
        rw [ih (n / 10) (Nat.div_lt_self (by omega) (by omega)) f1 f2
          (by omega) (by omega)]

/-- Unfolding `natDigits` on a single digit. -/
theorem natDigits_small {n : Nat} (h : n < 10) : natDigits n = [digitChar n] := by
  simp [natDigits, natDigitsAux, h]

/-- Unfolding `natDigits` on a multi-digit number. -/
theorem natDigits_large {n : Nat} (h : ¬ n < 10) :
    natDigits n = natDigits (n / 10) ++ [digitChar (n % 10)] := by
  rw [natDigits, natDigits, natDigitsAux]
  simp only [h, if_false]
  rw [natDigitsAux_congr (n / 10) n (n / 10 + 1) (by omega) (by omega)]

/-- The digit characters are never the letter `s`. -/
theorem digitChar_ne_s (d : Nat) : digitChar d ≠ 's' := by
  unfold digitChar
  split <;> decide

/-- `s` never occurs among the decimal digits of a number. -/
theorem s_not_mem_natDigits (n : Nat) : 's' ∉ natDigits n := by
  induction n using Nat.strong_induction_on with
  | _ n ih =>
    by_cases h : n < 10
    · rw [natDigits_small h]
      simp
      exact (digitChar_ne_s n).symm
    · rw [natDigits_large h]
      simp
      exact ⟨ih (n / 10) (Nat.div_lt_self (by omega) (by omega)),
        (digitChar_ne_s (n % 10)).symm⟩

/-- `s` never occurs in a `%02d` rendering. -/
theorem s_not_mem_format02d (n : Nat) : 's' ∉ format02d n := by
  unfold format02d
  by_cases h : n < 10 <;> simp [h, s_not_mem_natDigits]

/-- The numeric value of one digit character. -/
def charVal (c : Char) : Nat := c.toNat - 48

/-- The numeric value of a digit string, accumulated onto `a`. -/
def valFrom (a : Nat) (l : Str) : Nat :=
  l.foldl (fun x c => x * 10 + charVal c) a

/-- `digitChar` inverts to its digit. -/
theorem charVal_digitChar {d : Nat} (h : d < 10) : charVal (digitChar d) = d := by
  interval_cases d <;> decide

/-- Folding the decimal digits of `n` onto an accumulator `a` recovers
`a * 10 ^ width + n`. -/
theorem valFrom_natDigits (n : Nat) : ∀ a,
    valFrom a (natDigits n) = a * 10 ^ (natDigits n).length + n := by
  induction n using Nat.strong_induction_on with
  | _ n ih =>
    intro a
    by_cases h : n < 10
    · rw [natDigits_small h]
      simp [valFrom, charVal_digitChar h]
    · rw [natDigits_large h]
      have hd : n / 10 < n := Nat.div_lt_self (by omega) (by omega)
      have hv := ih (n / 10) hd a
      simp only [valFrom, List.foldl_append, List.foldl_cons, List.foldl_nil] at hv ⊢
      rw [hv, charVal_digitChar (show n % 10 < 10 by omega)]
      simp only [List.length_append, List.length_cons, List.length_nil]
      rw [Nat.add_mul, Nat.mul_assoc, ← Nat.pow_succ, Nat.add_assoc]
      congr 1
      omega

/-- The value of a `%02d` rendering is the rendered number. -/
theorem valFrom_format02d (n : Nat) : valFrom 0 (format02d n) = n := by
  unfold format02d
  by_cases h : n < 10
  · simp only [h, if_true, valFrom, List.foldl_cons]
    have : (0 * 10 + charVal '0') = 0 := by decide
    rw [this]
    have := valFrom_natDigits n 0
    simpa [valFrom] using this
  · simp only [h, if_false]
    have := valFrom_natDigits n 0
    simpa using this

/-- `%02d` renderings determine the rendered number. -/
theorem format02d_inj {n1 n2 : Nat} (h : format02d n1 = format02d n2) : n1 = n2 := by
  have := congrArg (valFrom 0) h
  rwa [valFrom_format02d, valFrom_format02d] at this

/-- Two `s`-terminated strings whose bodies avoid `s` and where one is a
prefix of the other are equal. -/
theorem append_s_prefix_eq : ∀ u1 u2 : Str, 's' ∉ u1 → 's' ∉ u2 →
    (u1 ++ ['s']) <+: (u2 ++ ['s']) → u1 = u2 := by
  intro u1
  induction u1 with
  | nil =>
    intro u2 _ h2 hp
    match u2 with
    | [] => rfl
    | c :: u2t =>
      exfalso
      rw [List.nil_append, List.cons_append, List.cons_prefix_cons] at hp
      exact h2 (hp.1 ▸ List.mem_cons_self c u2t)
  | cons a u1t ih =>
    intro u2 h1 h2 hp
    match u2 with
    | [] =>
      exfalso
      rw [List.cons_append, List.nil_append, List.cons_prefix_cons] at hp
      exact h1 (hp.1 ▸ List.mem_cons_self a u1t)
    | c :: u2t =>
      rw [List.cons_append, List.cons_append, List.cons_prefix_cons] at hp
      have := ih u2t (fun hm => h1 (List.mem_cons_of_mem a hm))
        (fun hm => h2 (List.mem_cons_of_mem c hm)) hp.2
      rw [hp.1, this]

/-- A candidate prefix that is a prefix of another candidate prefix has the
same counter. -/
theorem mnPfx_prefix_inj {n1 n2 : Nat} (h : mnPfx n1 <+: mnPfx n2) : n1 = n2 := by
  unfold mnPfx at h
  rw [List.cons_prefix_cons] at h
  rw [List.cons_prefix_cons] at h
  exact format02d_inj (append_s_prefix_eq (format02d n1) (format02d n2)
    (s_not_mem_format02d n1) (s_not_mem_format02d n2) h.2.2)

/-- Two candidate prefixes of the same existing name have the same counter:
the character after the digits is `s`, which no digit is, so a name
determines the counter it collides with. -/
theorem mnPfx_unique {n1 n2 : Nat} {p : Str} (h1 : mnPfx n1 <+: p)
    (h2 : mnPfx n2 <+: p) : n1 = n2 := by
  rcases List.prefix_or_prefix_of_prefix h1 h2 with h | h
  · exact mnPfx_prefix_inj h
  · exact (mnPfx_prefix_inj h).symm

/-- If the search loop runs out of fuel, every candidate it visited
collided. -/
theorem findNum_none_collides {phys : List Str} : ∀ fuel num,
    findNum phys fuel num = none → ∀ k, k < fuel → collides phys (num + k) = true := by
  intro fuel
  induction fuel with
  | zero => intro num _ k hk; omega
  | succ fuel ih =>
    intro num h k hk
    by_cases hc : collides phys num = true
    · rw [findNum, if_pos hc] at h
      match k with
      | 0 => simpa using hc
      | k + 1 =>
        have := ih (num + 1) h k (by omega)
        rwa [show num + (k + 1) = num + 1 + k by omega]
    · rw [findNum, if_neg hc] at h
      simp at h

/-- What the search loop returns: the first candidate at or after the start
that does not collide. -/
theorem findNum_some_spec {phys : List Str} : ∀ fuel num n,
    findNum phys fuel num = some n →
      num ≤ n ∧ collides phys n = false ∧
      ∀ m, num ≤ m → m < n → collides phys m = true := by
  intro fuel
  induction fuel with
  | zero => intro num n h; simp [findNum] at h
  | succ fuel ih =>
    intro num n h
    by_cases hc : collides phys num = true
    · rw [findNum, if_pos hc] at h
      obtain ⟨h1, h2, h3⟩ := ih (num + 1) n h
      refine ⟨by omega, h2, fun m hm1 hm2 => ?_⟩
      by_cases hm : m = num
      · rwa [hm]
      · exact h3 m (by omega) hm2
    · rw [findNum, if_neg hc] at h
      obtain rfl : num = n := by simpa using h
      exact ⟨Nat.le_refl _, by simpa using hc, fun m hm1 hm2 => by omega⟩

/-- The loop terminates within `phys.length + 1` candidates: each name can
collide with at most one candidate counter (`mnPfx_unique`), so at most
`phys.length` candidates collide at all. -/
theorem derivedNum_isSome (phys : List Str) : ∃ n, derivedNum phys = some n := by
  cases he : derivedNum phys with
  | some n => exact ⟨n, rfl⟩
  | none =>
    exfalso
    unfold derivedNum at he
    have hall : ∀ k, k < phys.length + 1 → collides phys k = true := by
      intro k hk
      have := findNum_none_collides (phys.length + 1) 0 he k hk
      simpa using this
    have hf : ∀ k, k < phys.length + 1 →
        ((phys.find? fun p => (mnPfx k).isPrefixOf p).getD []) ∈ phys ∧
        (mnPfx k).isPrefixOf ((phys.find? fun p => (mnPfx k).isPrefixOf p).getD []) = true := by
      intro k hk
      have hc := hall k hk
      simp only [collides, List.any_eq_true] at hc
      obtain ⟨p, hp1, hp2⟩ := hc
      have hsome : (phys.find? fun p => (mnPfx k).isPrefixOf p).isSome :=
        List.find?_isSome.mpr ⟨p, hp1, hp2⟩
      obtain ⟨q, hq⟩ := Option.isSome_iff_exists.mp hsome
      rw [hq]
      exact ⟨List.mem_of_find?_eq_some hq, List.find?_some hq⟩
    have hmap : ∀ k ∈ Finset.range (phys.length + 1),
        ((phys.find? fun p => (mnPfx k).isPrefixOf p).getD []) ∈ phys.toFinset := by
      intro k hk
      exact List.mem_toFinset.mpr (hf k (Finset.mem_range.mp hk)).1
    have hcard : phys.toFinset.card < (Finset.range (phys.length + 1)).card := by
      have := phys.toFinset_card_le
      rw [Finset.card_range]
      omega
    obtain ⟨x, hx, y, hy, hxy, hfeq⟩ :=
      Finset.exists_ne_map_eq_of_card_lt_of_maps_to hcard hmap
    have hx2 := hf x (Finset.mem_range.mp hx)
    have hy2 := hf y (Finset.mem_range.mp hy)
    refine hxy (mnPfx_unique (List.isPrefixOf_iff_prefix.mp hx2.2) ?_)
    exact hfeq ▸ List.isPrefixOf_iff_prefix.mp hy2.2

/-- Claim C3: for every list of existing device-group names the derivation
loop terminates and the derived prefix is `"mn" + %02d-counter + "s"` for
the smallest counter whose candidate prefix no existing name starts with;
in particular for `["mn00s", "mn01s"]` the derived prefix is `"mn02s"`. -/
theorem claim_C3_prefix_derivation :
    (∀ phys : List Str, ∃ n, derivedNum phys = some n ∧
      derivedPfx phys = some (mnPfx n) ∧ collides phys n = false ∧
      ∀ m, m < n → collides phys m = true) ∧
    derivedPfx [['m', 'n', '0', '0', 's'], ['m', 'n', '0', '1', 's']] =
      some ['m', 'n', '0', '2', 's'] := by
  constructor
  · intro phys
    obtain ⟨n, hn⟩ := derivedNum_isSome phys
    have hn2 : findNum phys (phys.length + 1) 0 = some n := hn
    obtain ⟨h1, h2, h3⟩ := findNum_some_spec (phys.length + 1) 0 n hn2
    exact ⟨n, hn, by simp [derivedPfx, hn], h2, fun m hm => h3 m (by omega) hm⟩
  · decide
